import Mathlib

/-!
Shallow embedding of the ast-grep language server core
(`crates/lsp/src/lib.rs`): the versioned document store, the
diagnostics pipeline and the code-action fix resolver, together with
proofs about them.  External collaborators (URL handling, language
detection from a path, the tree-sitter pattern matcher and the fixer
template expansion) are modelled as explicit function parameters, as
the specification treats them as opaque capabilities.
-/

set_option autoImplicit false

namespace AstGrepLsp

/-- LSP `Position` (`tower_lsp::lsp_types::Position`): zero-based line and
character offsets, `u32` on the wire. -/
structure Position where
  line : Nat
  character : Nat
deriving DecidableEq

/-- LSP `Range`.  The source field named `end` is a Lean keyword, so it is
rendered here as `finish`. -/
structure Range where
  start : Position
  finish : Position
deriving DecidableEq

/-- The `u32` modulus: `convert_node_to_range` casts `usize` positions with
`as u32`, which truncates modulo `2 ^ 32`. -/
def U32_MOD : Nat := 4294967296

/-- A syntax node as exposed by `ast_grep_core`: its start and end positions
(`start_pos`, `end_pos`, each a `(row, col)` pair of `usize`) and its text. -/
structure Node where
  startPos : Nat × Nat
  endPos : Nat × Nat
  text : String
deriving DecidableEq

/-- An `ast_grep_core::NodeMatch`: the matched node, plus the result of the
environment lookup `node_match.get_env().get_labels("secondary")` used by
`collect_labels`, modelled directly as the optional list of secondary nodes. -/
structure NodeMatch where
  node : Node
  secondary : Option (List Node)
deriving DecidableEq

/-- `ast_grep_config::Severity`. -/
inductive Severity where
  | error
  | warning
  | info
  | hint
  | off
deriving DecidableEq

/-- `ast_grep_core::AstGrep`: the parsed root of a document.  Parsing is an
external capability, so `AstGrep::new(text, lang)` is modelled as the pair of
the full text and the language value. -/
structure AstGrep (Lang : Type) where
  text : String
  lang : Lang
deriving DecidableEq

/-- `ast_grep_config::RuleConfig`.  The pattern matcher `config.matcher` is an
external capability; its two uses in this file are modelled as the fields
`find_all` (the matches `matcher` produces on a root, used by
`root().find_all(&matcher)`) and `fixer` (the optional fixer template
`config.matcher.fixer`, modelled as the replacement text
`String::from_utf8(matched_node.replace_by(fixer).inserted_text)` it yields
on a match). -/
structure RuleConfig (Lang : Type) where
  id : String
  message : String
  severity : Severity
  url : Option String
  find_all : AstGrep Lang → List NodeMatch
  fixer : Option (NodeMatch → String)

/-- `ast_grep_config::RuleCollection`: consumed only through
`rules.for_path(&path)`, an opaque "rules applicable to this path" lookup. -/
structure RuleCollection (Lang : Type) where
  for_path : String → List (RuleConfig Lang)

/-- `VersionedAst` from the source: the per-document store entry. -/
structure VersionedAst (Lang : Type) where
  version : Int
  root : AstGrep Lang
deriving DecidableEq

/-- External collaborator capabilities used by the backend:
`Url::to_file_path().ok()`, `L::from_path` and `Url::parse(..).ok()`. -/
structure Externals (Lang : Type) where
  toFilePath : String → Option String
  fromPath : String → Option Lang
  urlParse : String → Option String

/-- `tower_lsp::lsp_types::NumberOrString` (diagnostic codes). -/
inductive NumberOrString where
  | num (n : Int)
  | str (s : String)
deriving DecidableEq

/-- `tower_lsp::lsp_types::DiagnosticSeverity`. -/
inductive DiagnosticSeverity where
  | ERROR
  | WARNING
  | INFORMATION
  | HINT
deriving DecidableEq

/-- `DiagnosticRelatedInformation`: a location (uri and range) and a message. -/
structure DiagnosticRelatedInformation where
  uri : String
  range : Range
  message : String
deriving DecidableEq

/-- `tower_lsp::lsp_types::Diagnostic`, with the fields the server populates.
`codeDescription` holds the parsed `href` of the rule's documentation URL. -/
structure Diagnostic where
  range : Range
  code : Option NumberOrString
  codeDescription : Option String
  severity : Option DiagnosticSeverity
  message : String
  source : Option String
  relatedInformation : Option (List DiagnosticRelatedInformation)
deriving DecidableEq

/-- `tower_lsp::lsp_types::TextEdit`. -/
structure TextEdit where
  range : Range
  newText : String
deriving DecidableEq

/-- `WorkspaceEdit`: only the `changes` field is ever populated
(`document_changes` and `change_annotations` are always `None`).  The
`HashMap<Url, Vec<TextEdit>>` is modelled as an association list. -/
structure WorkspaceEdit where
  changes : Option (List (String × List TextEdit))
deriving DecidableEq

/-- `CodeAction`, with the fields the server populates (`command`,
`disabled` and `data` are always `None` in the source and are omitted). -/
structure CodeAction where
  title : String
  kind : Option String
  diagnostics : Option (List Diagnostic)
  edit : Option WorkspaceEdit
  isPreferred : Option Bool
deriving DecidableEq

/-- `tower_lsp::lsp_types::MessageType` values used by the server. -/
inductive MessageType where
  | error
  | info
  | log
deriving DecidableEq

/-- Observable effects the backend sends through the `Client` transport, plus
the document-store mutations, in program order.  `storeInsert` is
`self.map.insert(..)` (in `on_open`), `storeWrite` is the `*versioned = ..`
assignment through the `get_mut` guard (in `on_change`). -/
inductive Event (Lang : Type) where
  | logMessage (t : MessageType) (msg : String)
  | showMessage (t : MessageType) (msg : String)
  | publishDiagnostics (uri : String) (diagnostics : List Diagnostic) (version : Option Int)
  | storeInsert (uri : String) (entry : VersionedAst Lang)
  | storeWrite (uri : String) (entry : VersionedAst Lang)
deriving DecidableEq

/-- Association-list lookup, modelling `DashMap::get` / `HashMap::get` with
string keys. -/
def assocLookup {β : Type} : List (String × β) → String → Option β
  | [], _ => none
  | (k, v) :: rest, key => if k = key then some v else assocLookup rest key

/-- Association-list insert-or-replace, modelling `DashMap::insert` and the
assignment through a `get_mut` guard. -/
def assocInsert {β : Type} : List (String × β) → String → β → List (String × β)
  | [], key, v => [(key, v)]
  | (k, w) :: rest, key, v =>
    if k = key then (k, v) :: rest else (k, w) :: assocInsert rest key v

/-- Association-list removal, modelling `DashMap::remove`. -/
def assocRemove {β : Type} : List (String × β) → String → List (String × β)
  | [], _ => []
  | (k, w) :: rest, key => if k = key then rest else (k, w) :: assocRemove rest key

/-- The document store `map : DashMap<String, VersionedAst<StrDoc<L>>>`. -/
def Store (Lang : Type) := List (String × VersionedAst Lang)

/-- `convert_node_to_range`: builds an LSP range from a node's start and end
positions, casting each `usize` coordinate `as u32`. -/
def convert_node_to_range (node : Node) : Range :=
  { start := { line := node.startPos.1 % U32_MOD, character := node.startPos.2 % U32_MOD }
    finish := { line := node.endPos.1 % U32_MOD, character := node.endPos.2 % U32_MOD } }

/-- `get_non_empty_message`: the rule's message, falling back to the rule id
when the configured message is empty (vscode hides diagnostics whose message
is empty). -/
def get_non_empty_message {Lang : Type} (rule : RuleConfig Lang) : String :=
  if rule.message.isEmpty then rule.id else rule.message

/-- `url_to_code_description`: `Url::parse(url.as_ref()?).ok()?`, keeping the
parsed href. -/
def url_to_code_description (urlParse : String → Option String) (url : Option String) :
    Option String :=
  url.bind urlParse

/-- The `match rule.severity` arm of `convert_match_to_diagnostic`.  The
`Severity::Off` arm is `unreachable!("turned-off rule should not have match")`
in the source; it is modelled as `none`, and the development proves it is
never taken for matches coming out of the combined scan. -/
def severity_to_lsp : Severity → Option DiagnosticSeverity
  | Severity.error => some DiagnosticSeverity.ERROR
  | Severity.warning => some DiagnosticSeverity.WARNING
  | Severity.info => some DiagnosticSeverity.INFORMATION
  | Severity.hint => some DiagnosticSeverity.HINT
  | Severity.off => none

/-- `collect_labels`: secondary labels from the match environment, each turned
into related information at this document's uri with an empty message. -/
def collect_labels (node_match : NodeMatch) (uri : String) :
    Option (List DiagnosticRelatedInformation) :=
  node_match.secondary.map fun secondary_nodes =>
    secondary_nodes.map fun n =>
      { uri := uri, range := convert_node_to_range n, message := "" }

/-- `convert_match_to_diagnostic`.  Returns `none` exactly when the source
would hit the `unreachable!` panic for `Severity::Off`. -/
def convert_match_to_diagnostic {Lang : Type} (urlParse : String → Option String)
    (node_match : NodeMatch) (rule : RuleConfig Lang) (uri : String) : Option Diagnostic :=
  (severity_to_lsp rule.severity).map fun sev =>
    { range := convert_node_to_range node_match.node
      code := some (NumberOrString.str rule.id)
      codeDescription := url_to_code_description urlParse rule.url
      severity := some sev
      message := get_non_empty_message rule
      source := some "ast-grep"
      relatedInformation := collect_labels node_match uri }

/-- Modelled from the spec: `CombinedScan` lives in the `ast_grep_config`
crate, which is not among the given sources.  Per the specification it
evaluates all applicable rules in a single pass over the tree, and a rule
configured with severity "off" must never produce a match (it is treated as
disabled).  The scan result is the list of (owning rule, match) pairs. -/
def combined_scan {Lang : Type} (configs : List (RuleConfig Lang)) (root : AstGrep Lang) :
    List (RuleConfig Lang × NodeMatch) :=
  (configs.filter fun c => !(c.severity == Severity.off)).flatMap fun c =>
    (c.find_all root).map fun m => (c, m)

/-- `Backend::publish_diagnostics`, as the list of effects it sends: nothing
when the uri has no file path or the rule collection failed to load,
otherwise one `publishDiagnostics` notification carrying the converted
matches of the combined scan, stamped with the stored version. -/
def publish_diagnostics {Lang : Type} (ext : Externals Lang)
    (rules : Except String (RuleCollection Lang)) (uri : String)
    (versioned : VersionedAst Lang) : List (Event Lang) :=
  match ext.toFilePath uri with
  | none => []
  | some path =>
    match rules with
    | Except.error _ => []
    | Except.ok rc =>
      let configs := rc.for_path path
      let diagnostics := (combined_scan configs versioned.root).filterMap fun rm =>
        convert_match_to_diagnostic ext.urlParse rm.2 rm.1 uri
      [Event.publishDiagnostics uri diagnostics (some versioned.version)]

/-- `infer_lang_from_uri`: `uri.to_file_path().ok()?` then `L::from_path`. -/
def infer_lang_from_uri {Lang : Type} (ext : Externals Lang) (uri : String) : Option Lang :=
  (ext.toFilePath uri).bind ext.fromPath

/-- `DidOpenTextDocumentParams`, reduced to the fields the handler reads. -/
structure DidOpenParams where
  uri : String
  version : Int
  text : String
deriving DecidableEq

/-- One element of `content_changes` (full-text sync: only `text` is read). -/
structure TextDocumentContentChangeEvent where
  text : String
deriving DecidableEq

/-- `DidChangeTextDocumentParams`, reduced to the fields the handler reads. -/
structure DidChangeParams where
  uri : String
  version : Int
  content_changes : List TextDocumentContentChangeEvent
deriving DecidableEq

/-- `Backend::on_open`: log, resolve the language (bailing out silently when
unsupported), parse, publish diagnostics for the fresh snapshot, and only
then insert the snapshot into the store.  Returns the new store and the
effects in program order. -/
def on_open {Lang : Type} (ext : Externals Lang)
    (rules : Except String (RuleCollection Lang)) (store : Store Lang)
    (params : DidOpenParams) : Store Lang × List (Event Lang) :=
  let ev0 : List (Event Lang) := [Event.logMessage MessageType.log "Parsing doc."]
  match infer_lang_from_uri ext params.uri with
  | none => (store, ev0)
  | some lang =>
    let root : AstGrep Lang := { text := params.text, lang := lang }
    let versioned : VersionedAst Lang := { version := params.version, root := root }
    let ev1 := ev0 ++ [Event.logMessage MessageType.log "Publishing init diagnostics."]
    let pubs := publish_diagnostics ext rules params.uri versioned
    (assocInsert store params.uri versioned,
      ev1 ++ pubs ++ [Event.storeInsert params.uri versioned])

/-- Outcome of `Backend::on_change`: either the handler panics (the unguarded
`params.content_changes[0]` index on an empty list), or it finishes with a
resulting store and its effects in program order. -/
inductive ChangeOutcome (Lang : Type) where
  | panicked
  | finished (store : Store Lang) (events : List (Event Lang))

/-- The store an `on_change` outcome finished with, if it did not panic. -/
def ChangeOutcome.resultStore {Lang : Type} : ChangeOutcome Lang → Option (Store Lang)
  | ChangeOutcome.panicked => none
  | ChangeOutcome.finished store _ => some store

/-- The effects an `on_change` outcome finished with, if it did not panic. -/
def ChangeOutcome.events {Lang : Type} : ChangeOutcome Lang → List (Event Lang)
  | ChangeOutcome.panicked => []
  | ChangeOutcome.finished _ events => events

/-- `Backend::on_change`: read `content_changes[0]` (panicking when the list
is empty), log, resolve the language, parse, look the document up in the
store (silently doing nothing when absent), drop the update when the stored
version is strictly greater, otherwise overwrite the entry and publish
diagnostics for the freshly written snapshot. -/
def on_change {Lang : Type} (ext : Externals Lang)
    (rules : Except String (RuleCollection Lang)) (store : Store Lang)
    (params : DidChangeParams) : ChangeOutcome Lang :=
  match params.content_changes with
  | [] => ChangeOutcome.panicked
  | change :: _ =>
    let text := change.text
    let ev0 : List (Event Lang) := [Event.logMessage MessageType.log "Parsing changed doc."]
    match infer_lang_from_uri ext params.uri with
    | none => ChangeOutcome.finished store ev0
    | some lang =>
      let root : AstGrep Lang := { text := text, lang := lang }
      match assocLookup store params.uri with
      | none => ChangeOutcome.finished store ev0
      | some versioned =>
        if versioned.version > params.version then
          ChangeOutcome.finished store ev0
        else
          let newEntry : VersionedAst Lang := { version := params.version, root := root }
          let store1 := assocInsert store params.uri newEntry
          ChangeOutcome.finished store1
            (ev0 ++ [Event.storeWrite params.uri newEntry,
                     Event.logMessage MessageType.log "Publishing diagnostics."]
                 ++ publish_diagnostics ext rules params.uri newEntry)

/-- `Backend::on_close`: remove the entry from the store. -/
def on_close {Lang : Type} (store : Store Lang) (uri : String) : Store Lang :=
  assocRemove store uri

/-- `LanguageServer::initialized`: one "server initialized!" log, and — only
when the rule collection failed to load — one error popup plus one error log
reporting the failure. -/
def initialized {Lang : Type} (rules : Except String (RuleCollection Lang)) :
    List (Event Lang) :=
  [Event.logMessage MessageType.info "server initialized!"] ++
    match rules with
    | Except.error error =>
      [Event.showMessage MessageType.error ("Failed to load rules: " ++ error),
       Event.logMessage MessageType.error ("Failed to load rules: " ++ error)]
    | Except.ok _ => []

/-- `bucketPush`: `error_id_to_ranges.entry(rule_id).or_insert_with(Vec::new)`
followed by `ranges.push(diagnostic.range)` on an association list. -/
def bucketPush : List (String × List Range) → String → Range → List (String × List Range)
  | [], id, r => [(id, [r])]
  | (k, rs) :: rest, id, r =>
    if k = id then (k, rs ++ [r]) :: rest else (k, rs) :: bucketPush rest id r

/-- `Backend::build_error_id_to_ranges`: bucket the client-echoed diagnostics
by their string rule-id code, discarding any diagnostic whose code is not a
string. -/
def build_error_id_to_ranges (diagnostics : List Diagnostic) : List (String × List Range) :=
  diagnostics.foldl
    (fun m d =>
      match d.code with
      | some (NumberOrString.str rule) => bucketPush m rule d.range
      | _ => m)
    []

/-- `Backend::compute_all_fixes`: fetch the stored tree (propagating `None`
when absent), pre-create the edit list under the document's uri, then for
every applicable rule with a bucket entry re-run its matcher over the live
tree and push an edit for each match whose range hits the bucket and whose
rule has a fixer. -/
def compute_all_fixes {Lang : Type} (store : Store Lang) (text_document_uri : String)
    (error_id_to_ranges : List (String × List Range)) (rules : RuleCollection Lang)
    (path : String) : Option (List (String × List TextEdit)) :=
  match assocLookup store text_document_uri with
  | none => none
  | some versioned =>
    let edits := (rules.for_path path).foldl
      (fun edits config =>
        match assocLookup error_id_to_ranges config.id with
        | none => edits
        | some ranges =>
          (config.find_all versioned.root).foldl
            (fun edits matched_node =>
              if ranges.contains (convert_node_to_range matched_node.node) then
                match config.fixer with
                | some fixer =>
                  edits ++ [{ range := convert_node_to_range matched_node.node,
                              newText := fixer matched_node }]
                | none => edits
              else edits)
            edits)
      []
    some [(text_document_uri, edits)]

/-- `CodeActionKind::QUICKFIX`. -/
def QUICKFIX : String := "quickfix"

/-- `CodeActionKind::SOURCE_FIX_ALL`. -/
def SOURCE_FIX_ALL : String := "source.fixAll"

/-- `SOURCE_FIX_ALL_AST_GREP`. -/
def SOURCE_FIX_ALL_AST_GREP : String := "source.fixAll.ast-grep"

/-- `CodeActionParams`, reduced to the fields the handler reads: the document
uri, the client-echoed diagnostics, and `context.only`. -/
structure CodeActionParams where
  uri : String
  diagnostics : List Diagnostic
  only : Option (List String)
deriving DecidableEq

/-- `Backend::on_code_action`: resolve the file path (`None` when the uri is
not a file), bucket the echoed diagnostics, read the first requested action
kind (`None` when `only` is absent or empty), answer an empty response for
unsupported kinds or when the rules failed to load, and otherwise answer one
"Source Code fix action" carrying the computed workspace edit. -/
def on_code_action {Lang : Type} (ext : Externals Lang)
    (rules : Except String (RuleCollection Lang)) (store : Store Lang)
    (params : CodeActionParams) : Option (List CodeAction) :=
  match ext.toFilePath params.uri with
  | none => none
  | some path =>
    let error_id_to_ranges := build_error_id_to_ranges params.diagnostics
    match params.only with
    | none => none
    | some [] => none
    | some (code_action :: _) =>
      if code_action ≠ QUICKFIX ∧ code_action ≠ SOURCE_FIX_ALL ∧
          code_action ≠ SOURCE_FIX_ALL_AST_GREP then
        some []
      else
        match rules with
        | Except.error _ => some []
        | Except.ok rules =>
          let changes := compute_all_fixes store params.uri error_id_to_ranges rules path
          some [{ title := "Source Code fix action"
                  kind := some code_action
                  diagnostics := none
                  edit := some { changes := changes }
                  isPreferred := some true }]

/-! ## Helper lemmas -/

/-- Inserting a key makes it the one that is looked up. -/
theorem assocLookup_assocInsert_self {β : Type} (m : List (String × β)) (k : String) (v : β) :
    assocLookup (assocInsert m k v) k = some v := by
  induction m with
  | nil => simp [assocInsert, assocLookup]
  | cons p rest ih =>
    obtain ⟨k1, v1⟩ := p
    by_cases h : k1 = k <;> simp [assocInsert, assocLookup, h, ih]

/-- A non-off severity always maps to an LSP severity. -/
theorem severity_to_lsp_isSome {s : Severity} (h : s ≠ Severity.off) :
    (severity_to_lsp s).isSome = true := by
  cases s
  case off => exact absurd rfl h
  all_goals rfl

/-- Whether a transport effect is a popup (`show_message`). -/
def isShowMessage {Lang : Type} : Event Lang → Bool
  | Event.showMessage _ _ => true
  | _ => false

/-- `publish_diagnostics` never produces a popup. -/
theorem publish_diagnostics_no_show {Lang : Type} (ext : Externals Lang)
    (rules : Except String (RuleCollection Lang)) (uri : String)
    (versioned : VersionedAst Lang) :
    (publish_diagnostics ext rules uri versioned).filter isShowMessage = [] := by
  unfold publish_diagnostics
  cases ext.toFilePath uri with
  | none => rfl
  | some path =>
    cases rules with
    | error e => rfl
    | ok rc => simp [isShowMessage]

/-! ## Sample concrete instances used by witnesses and counterexamples -/

/-- External capabilities over a trivial language: every uri is its own file
path, every path resolves to the one language, no documentation URL parses. -/
def unitExternals : Externals Unit :=
  { toFilePath := fun uri => some uri
    fromPath := fun _ => some ()
    urlParse := fun _ => none }

/-- A sample matched node: the whole call `console.log('hi')` on line 0. -/
def sampleNode : Node :=
  { startPos := (0, 0), endPos := (0, 17), text := "console.log('hi')" }

/-- A sample match with no secondary labels. -/
def sampleMatch : NodeMatch := { node := sampleNode, secondary := none }

/-- The `no-console-rule` from the repository's own test, over the trivial
language: it matches `sampleMatch` on every root and fixes it to
`alert('hi')`. -/
def sampleRule : RuleConfig Unit :=
  { id := "no-console-rule"
    message := "No console.log"
    severity := Severity.warning
    url := none
    find_all := fun _ => [sampleMatch]
    fixer := some fun _ => "alert('hi')" }

/-- A sample parsed root. -/
def sampleRoot : AstGrep Unit := { text := "console.log('hi')", lang := () }

/-- An empty rule collection (no rule applies to any path). -/
def emptyRules : RuleCollection Unit := { for_path := fun _ => [] }

/-! ## C10 -/

/-- C10: `on_change` reads `content_changes[0]` with an unguarded index, so
it panics exactly when the change event's `content_changes` list is empty;
for a non-empty list every path through the handler finishes normally. -/
theorem c10_change_panics_iff_no_content_changes {Lang : Type} (ext : Externals Lang)
    (rules : Except String (RuleCollection Lang)) (store : Store Lang)
    (params : DidChangeParams) :
    on_change ext rules store params = ChangeOutcome.panicked ↔
      params.content_changes = [] := by
  unfold on_change
  cases h : params.content_changes with
  | nil => simp
  | cons c rest =>
    cases hl : infer_lang_from_uri ext params.uri with
    | none => simp
    | some lang =>
      cases hs : assocLookup store params.uri with
      | none => simp
      | some versioned =>
        by_cases hv : versioned.version > params.version <;> simp [hv]

/-! ## C5 -/

/-- C5: a code-action request for a file-backed document whose (first)
requested action kind is none of quick-fix, `source.fixAll` or
`source.fixAll.ast-grep` is answered with an empty action list — the handler
returns normally, never an error. -/
theorem c5_unknown_action_kind_inert {Lang : Type} (ext : Externals Lang)
    (rules : Except String (RuleCollection Lang)) (store : Store Lang)
    (params : CodeActionParams) (path k : String) (rest : List String)
    (hpath : ext.toFilePath params.uri = some path)
    (honly : params.only = some (k :: rest))
    (hk1 : k ≠ QUICKFIX) (hk2 : k ≠ SOURCE_FIX_ALL) (hk3 : k ≠ SOURCE_FIX_ALL_AST_GREP) :
    on_code_action ext rules store params = some [] := by
  unfold on_code_action
  rw [hpath, honly]
  simp [hk1, hk2, hk3]

/-- C5 witness: requesting only `refactor.extract` yields the empty list. -/
theorem c5_witness :
    on_code_action unitExternals (Except.ok emptyRules) ([] : Store Unit)
      { uri := "file:///a.ts", diagnostics := [], only := some ["refactor.extract"] } =
      some [] :=
  c5_unknown_action_kind_inert unitExternals (Except.ok emptyRules) [] _ "file:///a.ts"
    "refactor.extract" [] rfl rfl (by decide) (by decide) (by decide)

/-! ## C8 -/

/-- C8: an emitted diagnostic's message equals the rule's configured message
when that is non-empty and falls back to the rule's id when it is empty; in
particular the message is never empty as long as the rule actually has an id
(or a message). -/
theorem c8_diagnostic_message_never_empty {Lang : Type}
    (urlParse : String → Option String) (node_match : NodeMatch)
    (rule : RuleConfig Lang) (uri : String) (d : Diagnostic)
    (h : convert_match_to_diagnostic urlParse node_match rule uri = some d) :
    d.message = (if rule.message.isEmpty then rule.id else rule.message) ∧
      ((¬ rule.message.isEmpty ∨ rule.id ≠ "") → d.message ≠ "") := by
  have hmsg : d.message = get_non_empty_message rule := by
    unfold convert_match_to_diagnostic at h
    cases hs : severity_to_lsp rule.severity with
    | none => rw [hs] at h; simp at h
    | some sev =>
      rw [hs] at h
      injection h with h
      rw [← h]
  refine ⟨by rw [hmsg]; rfl, ?_⟩
  intro hne
  rw [hmsg]
  unfold get_non_empty_message
  by_cases he : rule.message.isEmpty
  · simp only [he, if_true]
    rcases hne with hne | hne
    · exact absurd he hne
    · exact hne
  · simp only [he, if_false]
    intro habs
    exact he ((String.isEmpty_iff rule.message).mpr habs)

/-- C8 witness: a rule with an empty configured message yields a diagnostic
whose message is the rule id `no-console-rule`, which is non-empty. -/
theorem c8_witness :
    ∃ d, convert_match_to_diagnostic (fun _ => none) sampleMatch
        { sampleRule with message := "" } "file:///a.ts" = some d ∧
      d.message = "no-console-rule" ∧ d.message ≠ "" := by
  refine ⟨_, rfl, ?_, ?_⟩
  · have := (c8_diagnostic_message_never_empty (fun _ => none) sampleMatch
      { sampleRule with message := "" } "file:///a.ts" _ rfl).1
    rw [this]
    rfl
  · exact (c8_diagnostic_message_never_empty (fun _ => none) sampleMatch
      { sampleRule with message := "" } "file:///a.ts" _ rfl).2 (Or.inr (by decide))

/-! ## C9 -/

/-- C9: every (rule, match) pair produced by the combined scan has a rule
whose severity is not "off", and therefore its diagnostic conversion
succeeds: the `unreachable!` panic of the `Severity::Off` arm is never
executed for any document and rule set. -/
theorem c9_off_rule_never_converts {Lang : Type} (urlParse : String → Option String)
    (configs : List (RuleConfig Lang)) (root : AstGrep Lang) (uri : String)
    (rm : RuleConfig Lang × NodeMatch) (h : rm ∈ combined_scan configs root) :
    rm.1.severity ≠ Severity.off ∧
      (convert_match_to_diagnostic urlParse rm.2 rm.1 uri).isSome = true := by
  obtain ⟨c, m⟩ := rm
  dsimp only
  unfold combined_scan at h
  simp only [List.mem_flatMap, List.mem_filter, List.mem_map] at h
  obtain ⟨c1, ⟨_, hsev⟩, m1, _, heq⟩ := h
  rw [Prod.mk.injEq] at heq
  obtain ⟨hc, hm⟩ := heq
  subst hc
  subst hm
  have hoff : c1.severity ≠ Severity.off := by
    intro habs
    rw [habs] at hsev
    simp at hsev
  refine ⟨hoff, ?_⟩
  unfold convert_match_to_diagnostic
  cases hs : severity_to_lsp c1.severity with
  | none =>
    have hsome := severity_to_lsp_isSome hoff
    rw [hs] at hsome
    simp at hsome
  | some sev => rfl

/-- C9 witness: the sample warning rule appears in the combined scan with its
match, and its conversion succeeds. -/
theorem c9_witness :
    (sampleRule, sampleMatch) ∈ combined_scan [sampleRule] sampleRoot ∧
      ((sampleRule, sampleMatch).1.severity ≠ Severity.off ∧
        (convert_match_to_diagnostic (fun _ => none) (sampleRule, sampleMatch).2
            (sampleRule, sampleMatch).1 "file:///a.ts").isSome = true) := by
  have hmem : (sampleRule, sampleMatch) ∈ combined_scan [sampleRule] sampleRoot := by
    have hscan : combined_scan [sampleRule] sampleRoot = [(sampleRule, sampleMatch)] := rfl
    rw [hscan]
    exact List.mem_singleton.mpr rfl
  exact ⟨hmem, c9_off_rule_never_converts (fun _ => none) [sampleRule] sampleRoot
    "file:///a.ts" (sampleRule, sampleMatch) hmem⟩

/-! ## C3 -/

/-- C3: when the rule collection failed to load, every per-document
diagnostics pass publishes nothing, every code-action request yields an empty
action list (or no response for non-file uris / absent action kinds), the
failure popup is emitted exactly once at `initialized`, and no document
handler ever emits a popup. -/
theorem c3_load_failure_silently_disables {Lang : Type} (ext : Externals Lang) (e : String) :
    (∀ uri versioned, publish_diagnostics ext (Except.error e) uri versioned = []) ∧
    (∀ store params, on_code_action ext (Except.error e) store params = none ∨
        on_code_action ext (Except.error e) store params = some []) ∧
    ((@initialized Lang (Except.error e)).filter isShowMessage =
        [Event.showMessage MessageType.error ("Failed to load rules: " ++ e)]) ∧
    (∀ rules store params, ((on_open ext rules store params).2.filter isShowMessage = [])) ∧
    (∀ rules store params, ((on_change ext rules store params).events.filter isShowMessage = [])) := by
  refine ⟨?_, ?_, ?_, ?_, ?_⟩
  · intro uri versioned
    unfold publish_diagnostics
    cases ext.toFilePath uri with
    | none => rfl
    | some path => rfl
  · intro store params
    unfold on_code_action
    cases hp : ext.toFilePath params.uri with
    | none => exact Or.inl rfl
    | some path =>
      cases ho : params.only with
      | none => exact Or.inl rfl
      | some l =>
        cases l with
        | nil => exact Or.inl rfl
        | cons k rest =>
          by_cases hk : k ≠ QUICKFIX ∧ k ≠ SOURCE_FIX_ALL ∧ k ≠ SOURCE_FIX_ALL_AST_GREP
          · exact Or.inr (by simp [hk])
          · exact Or.inr (by simp [hk])
  · rfl
  · intro rules store params
    unfold on_open
    cases hl : infer_lang_from_uri ext params.uri with
    | none => rfl
    | some lang =>
      simp [List.filter_append, publish_diagnostics_no_show, isShowMessage]
  · intro rules store params
    unfold on_change
    cases hc : params.content_changes with
    | nil => rfl
    | cons c rest =>
      cases hl : infer_lang_from_uri ext params.uri with
      | none => rfl
      | some lang =>
        cases hs : assocLookup store params.uri with
        | none => rfl
        | some versioned =>
          by_cases hv : versioned.version > params.version
          · simp [hv, ChangeOutcome.events, isShowMessage]
          · simp [hv, ChangeOutcome.events, List.filter_append,
              publish_diagnostics_no_show, isShowMessage]

/-! ## C1 -/

/-- A store holding `file:///a.ts` at version 5 with text "old". -/
def staleStore : Store Unit :=
  [("file:///a.ts", { version := 5, root := { text := "old", lang := () } })]

/-- A change event carrying the same version 5 but new text. -/
def equalVersionChange : DidChangeParams :=
  { uri := "file:///a.ts", version := 5, content_changes := [{ text := "new" }] }

/-- C1 counterexample: a change whose version equals the stored version does
NOT leave the snapshot unchanged — the entry is replaced with the new tree at
the same version, refuting "any call with version ≤ currently stored version
leaves the store unchanged" (the source gate is `storedVersion > incoming`,
so equal versions pass). -/
theorem c1_equal_version_replaces_counterexample :
    (on_change unitExternals (Except.ok emptyRules) staleStore equalVersionChange).resultStore =
      some [("file:///a.ts", { version := 5, root := { text := "new", lang := () } })] ∧
    [("file:///a.ts", ({ version := 5, root := { text := "new", lang := () } } : VersionedAst Unit))] ≠
      staleStore := by
  exact ⟨rfl, by decide⟩

/-- C1 amended: a change is a no-op only when the stored version is strictly
greater than the incoming one; an incoming version greater than OR EQUAL to
the stored version replaces the entry with the incoming {version, tree}; an
open replaces the entry unconditionally, with no version comparison at all. -/
theorem c1_version_gate_amended {Lang : Type} (ext : Externals Lang)
    (rules : Except String (RuleCollection Lang)) (store : Store Lang)
    (params : DidChangeParams) (c : TextDocumentContentChangeEvent)
    (rest : List TextDocumentContentChangeEvent) (lang : Lang) (old : VersionedAst Lang)
    (hc : params.content_changes = c :: rest)
    (hlang : infer_lang_from_uri ext params.uri = some lang)
    (hold : assocLookup store params.uri = some old) :
    (old.version > params.version →
      (on_change ext rules store params).resultStore = some store) ∧
    (old.version ≤ params.version →
      (on_change ext rules store params).resultStore =
        some (assocInsert store params.uri
          { version := params.version, root := { text := c.text, lang := lang } }) ∧
      assocLookup ((on_change ext rules store params).resultStore.getD []) params.uri =
        some { version := params.version, root := { text := c.text, lang := lang } }) ∧
    (∀ (op : DidOpenParams) (lang2 : Lang), infer_lang_from_uri ext op.uri = some lang2 →
      assocLookup (on_open ext rules store op).1 op.uri =
        some { version := op.version, root := { text := op.text, lang := lang2 } }) := by
  refine ⟨?_, ?_, ?_⟩
  · intro hgt
    unfold on_change
    rw [hc, hlang, hold]
    dsimp only
    rw [if_pos hgt]
    rfl
  · intro hle
    have hnot : ¬ (old.version > params.version) := not_lt.mpr hle
    constructor
    · unfold on_change
      rw [hc, hlang, hold]
      dsimp only
      rw [if_neg hnot]
      rfl
    · unfold on_change
      rw [hc, hlang, hold]
      dsimp only
      rw [if_neg hnot]
      exact assocLookup_assocInsert_self store params.uri _
  · intro op lang2 hlang2
    unfold on_open
    rw [hlang2]
    exact assocLookup_assocInsert_self store op.uri _

/-- C1 witness: a change with version 4 against stored version 5 is a no-op. -/
theorem c1_witness :
    (on_change unitExternals (Except.ok emptyRules) staleStore
        { uri := "file:///a.ts", version := 4,
          content_changes := [{ text := "newer" }] }).resultStore =
      some staleStore :=
  (c1_version_gate_amended unitExternals (Except.ok emptyRules) staleStore
    { uri := "file:///a.ts", version := 4, content_changes := [{ text := "newer" }] }
    { text := "newer" } [] ()
    { version := 5, root := { text := "old", lang := () } } rfl rfl rfl).1 (by decide)

/-! ## C4 -/

/-- C4 counterexample: a change for a document with no stored entry inserts
nothing — the store (here empty) is left unchanged and the identifier is
still absent afterwards, refuting "if no entry exists, insert
unconditionally" for the change path. -/
theorem c4_change_without_entry_no_insert_counterexample :
    (on_change unitExternals (Except.ok emptyRules) ([] : Store Unit)
        { uri := "file:///a.ts", version := 1,
          content_changes := [{ text := "x" }] }).resultStore =
      some ([] : Store Unit) ∧
    assocLookup ([] : Store Unit) "file:///a.ts" = none := by
  exact ⟨rfl, rfl⟩

/-- C4 amended: an open (with a resolvable language) always stores the
incoming {version, tree} under the document's identifier — in particular it
inserts when no entry exists; a change for an identifier with no stored
entry inserts nothing: it either panics (empty change list) or leaves the
store unchanged. -/
theorem c4_open_inserts_change_requires_entry {Lang : Type} (ext : Externals Lang)
    (rules : Except String (RuleCollection Lang)) (store : Store Lang)
    (op : DidOpenParams) (lang : Lang) (params : DidChangeParams)
    (hlang : infer_lang_from_uri ext op.uri = some lang)
    (hnone : assocLookup store params.uri = none) :
    assocLookup (on_open ext rules store op).1 op.uri =
      some { version := op.version, root := { text := op.text, lang := lang } } ∧
    ((on_change ext rules store params).resultStore = some store ∨
      (on_change ext rules store params).resultStore = none) := by
  constructor
  · unfold on_open
    rw [hlang]
    exact assocLookup_assocInsert_self store op.uri _
  · unfold on_change
    cases hc : params.content_changes with
    | nil => exact Or.inr rfl
    | cons c rest =>
      cases hl : infer_lang_from_uri ext params.uri with
      | none => exact Or.inl rfl
      | some lang2 =>
        rw [hnone]
        exact Or.inl rfl

/-- C4 witness: opening a document against the empty store stores its
{version, tree}. -/
theorem c4_witness :
    assocLookup (on_open unitExternals (Except.ok emptyRules) ([] : Store Unit)
        { uri := "file:///a.ts", version := 1, text := "t" }).1 "file:///a.ts" =
      some { version := 1, root := { text := "t", lang := () } } :=
  (c4_open_inserts_change_requires_entry unitExternals (Except.ok emptyRules) []
    { uri := "file:///a.ts", version := 1, text := "t" } ()
    { uri := "file:///b.ts", version := 1, content_changes := [] } rfl rfl).1

/-! ## C7 -/

/-- A sample open event. -/
def openParams : DidOpenParams := { uri := "file:///a.ts", version := 1, text := "t" }

/-- The snapshot `openParams` produces over the trivial language. -/
def openedEntry : VersionedAst Unit := { version := 1, root := { text := "t", lang := () } }

/-- C7 counterexample: for an open event the handler publishes diagnostics
BEFORE the store insertion — in the effect trace of a concrete open, the
`publishDiagnostics` notification (index 2) strictly precedes the
`storeInsert` mutation (index 3), refuting "diagnostics computation and
publication happen after the store mutation for that event completes". -/
theorem c7_open_publishes_before_insert_counterexample :
    (on_open unitExternals (Except.ok emptyRules) ([] : Store Unit) openParams).2 =
      [Event.logMessage MessageType.log "Parsing doc.",
       Event.logMessage MessageType.log "Publishing init diagnostics.",
       Event.publishDiagnostics "file:///a.ts" [] (some 1),
       Event.storeInsert "file:///a.ts" openedEntry] ∧
    ((on_open unitExternals (Except.ok emptyRules) ([] : Store Unit) openParams).2)[2]? =
      some (Event.publishDiagnostics "file:///a.ts" [] (some 1)) ∧
    ((on_open unitExternals (Except.ok emptyRules) ([] : Store Unit) openParams).2)[3]? =
      some (Event.storeInsert "file:///a.ts" openedEntry) := by
  exact ⟨rfl, rfl, rfl⟩

/-- C7 amended: for change events diagnostics are computed and published
after the store write and read exactly the just-written snapshot; for open
events diagnostics are computed and published from the snapshot that is
about to be stored, BEFORE the store insertion completes (the snapshot read
is the one written, but the publication precedes the mutation). -/
theorem c7_publish_order_amended {Lang : Type} (ext : Externals Lang)
    (rules : Except String (RuleCollection Lang)) (store : Store Lang)
    (op : DidOpenParams) (lang : Lang) (chg : DidChangeParams)
    (c : TextDocumentContentChangeEvent) (rest : List TextDocumentContentChangeEvent)
    (lang2 : Lang) (old : VersionedAst Lang)
    (hopen : infer_lang_from_uri ext op.uri = some lang)
    (hc : chg.content_changes = c :: rest)
    (hchg : infer_lang_from_uri ext chg.uri = some lang2)
    (hold : assocLookup store chg.uri = some old)
    (hver : old.version ≤ chg.version) :
    (on_open ext rules store op).2 =
      [Event.logMessage MessageType.log "Parsing doc.",
       Event.logMessage MessageType.log "Publishing init diagnostics."]
      ++ publish_diagnostics ext rules op.uri
          { version := op.version, root := { text := op.text, lang := lang } }
      ++ [Event.storeInsert op.uri
          { version := op.version, root := { text := op.text, lang := lang } }] ∧
    on_change ext rules store chg =
      ChangeOutcome.finished
        (assocInsert store chg.uri
          { version := chg.version, root := { text := c.text, lang := lang2 } })
        ([Event.logMessage MessageType.log "Parsing changed doc.",
          Event.storeWrite chg.uri
            { version := chg.version, root := { text := c.text, lang := lang2 } },
          Event.logMessage MessageType.log "Publishing diagnostics."]
         ++ publish_diagnostics ext rules chg.uri
            { version := chg.version, root := { text := c.text, lang := lang2 } }) := by
  constructor
  · unfold on_open
    rw [hopen]
    rfl
  · have hnot : ¬ (old.version > chg.version) := not_lt.mpr hver
    unfold on_change
    rw [hc, hchg, hold]
    dsimp only
    rw [if_neg hnot]
    rfl

/-- C7 witness: concrete traces for an open and a newer-version change. -/
theorem c7_witness :
    (on_open unitExternals (Except.ok emptyRules) staleStore openParams).2 =
      [Event.logMessage MessageType.log "Parsing doc.",
       Event.logMessage MessageType.log "Publishing init diagnostics."]
      ++ publish_diagnostics unitExternals (Except.ok emptyRules) "file:///a.ts" openedEntry
      ++ [Event.storeInsert "file:///a.ts" openedEntry] ∧
    on_change unitExternals (Except.ok emptyRules) staleStore
        { uri := "file:///a.ts", version := 6, content_changes := [{ text := "new" }] } =
      ChangeOutcome.finished
        (assocInsert staleStore "file:///a.ts"
          { version := 6, root := { text := "new", lang := () } })
        ([Event.logMessage MessageType.log "Parsing changed doc.",
          Event.storeWrite "file:///a.ts" { version := 6, root := { text := "new", lang := () } },
          Event.logMessage MessageType.log "Publishing diagnostics."]
         ++ publish_diagnostics unitExternals (Except.ok emptyRules) "file:///a.ts"
            { version := 6, root := { text := "new", lang := () } }) :=
  c7_publish_order_amended unitExternals (Except.ok emptyRules) staleStore openParams ()
    { uri := "file:///a.ts", version := 6, content_changes := [{ text := "new" }] }
    { text := "new" } [] () { version := 5, root := { text := "old", lang := () } }
    rfl rfl rfl rfl (by decide)

/-! ## C2: the fix resolver refines the spec's description -/

/-- The ranges the client echoed for a given rule id: the ranges of exactly
those client diagnostics whose code is the string `id` (diagnostics whose
code is absent or numeric are discarded). -/
def diag_ranges_for (diagnostics : List Diagnostic) (id : String) : List Range :=
  diagnostics.filterMap fun d =>
    match d.code with
    | some (NumberOrString.str rule) => if rule = id then some d.range else none
    | _ => none

/-- Pushing a range onto a bucket: the pushed key now maps to its previous
ranges (empty when absent) extended by the new range. -/
theorem assocLookup_bucketPush_self (m : List (String × List Range)) (id : String) (r : Range) :
    assocLookup (bucketPush m id r) id = some ((assocLookup m id).getD [] ++ [r]) := by
  induction m with
  | nil => simp [bucketPush, assocLookup]
  | cons p rest ih =>
    obtain ⟨k, rs⟩ := p
    by_cases h : k = id <;> simp [bucketPush, assocLookup, h, ih]

/-- Pushing a range onto a bucket leaves every other key unchanged. -/
theorem assocLookup_bucketPush_other (m : List (String × List Range)) (id id2 : String)
    (r : Range) (h : id2 ≠ id) :
    assocLookup (bucketPush m id r) id2 = assocLookup m id2 := by
  induction m with
  | nil => simp [bucketPush, assocLookup, Ne.symm h]
  | cons p rest ih =>
    obtain ⟨k, rs⟩ := p
    by_cases hk : k = id
    · subst hk
      simp [bucketPush, assocLookup, Ne.symm h]
    · simp [bucketPush, assocLookup, hk, ih]

/-- Invariant of the bucketing fold of `build_error_id_to_ranges`, generalized
over the accumulator. -/
theorem assocLookup_build_fold (diagnostics : List Diagnostic)
    (m : List (String × List Range)) (id : String) :
    assocLookup (diagnostics.foldl
        (fun m d =>
          match d.code with
          | some (NumberOrString.str rule) => bucketPush m rule d.range
          | _ => m)
        m) id =
      match assocLookup m id, diag_ranges_for diagnostics id with
      | some rs, sel => some (rs ++ sel)
      | none, [] => none
      | none, sel => some sel := by
  induction diagnostics generalizing m with
  | nil =>
    simp only [List.foldl_nil, diag_ranges_for, List.filterMap_nil]
    cases assocLookup m id <;> simp
  | cons d ds ih =>
    simp only [List.foldl_cons]
    cases hcode : d.code with
    | none =>
      rw [ih]
      have hsel : diag_ranges_for (d :: ds) id = diag_ranges_for ds id := by
        simp [diag_ranges_for, List.filterMap_cons, hcode]
      rw [hsel]
    | some code =>
      cases code with
      | num n =>
        rw [ih]
        have hsel : diag_ranges_for (d :: ds) id = diag_ranges_for ds id := by
          simp [diag_ranges_for, List.filterMap_cons, hcode]
        rw [hsel]
      | str rule =>
        by_cases hid : rule = id
        · rw [ih]
          have hsel : diag_ranges_for (d :: ds) id = d.range :: diag_ranges_for ds id := by
            simp [diag_ranges_for, List.filterMap_cons, hcode, hid]
          rw [hsel, hid, assocLookup_bucketPush_self]
          cases assocLookup m id with
          | none => simp
          | some rs => simp
        · rw [ih]
          have hsel : diag_ranges_for (d :: ds) id = diag_ranges_for ds id := by
            simp [diag_ranges_for, List.filterMap_cons, hcode, hid]
          rw [hsel, assocLookup_bucketPush_other _ _ _ _ (Ne.symm hid)]

/-- What `build_error_id_to_ranges` assigns to a rule id: exactly the ranges
of the client diagnostics carrying that string id as code, in order, and no
entry at all when there is no such diagnostic. -/
theorem assocLookup_build_error_id_to_ranges (diagnostics : List Diagnostic) (id : String) :
    assocLookup (build_error_id_to_ranges diagnostics) id =
      if diag_ranges_for diagnostics id = [] then none
      else some (diag_ranges_for diagnostics id) := by
  unfold build_error_id_to_ranges
  rw [assocLookup_build_fold]
  cases hsel : diag_ranges_for diagnostics id with
  | nil => simp [assocLookup]
  | cons r rs => simp [assocLookup]

/-- The edits of one rule's inner match loop, as a `filterMap`: an edit for
each match whose range hits the bucket and whose rule has a fixer. -/
theorem fix_edits_inner_foldl (ranges : List Range) (fixer : Option (NodeMatch → String))
    (found : List NodeMatch) (acc : List TextEdit) :
    found.foldl
        (fun edits matched_node =>
          if ranges.contains (convert_node_to_range matched_node.node) then
            match fixer with
            | some fixer =>
              edits ++ [{ range := convert_node_to_range matched_node.node,
                          newText := fixer matched_node }]
            | none => edits
          else edits)
        acc =
      acc ++ found.filterMap (fun matched_node =>
        if ranges.contains (convert_node_to_range matched_node.node) then
          fixer.map fun fixer =>
            { range := convert_node_to_range matched_node.node, newText := fixer matched_node }
        else none) := by
  induction found generalizing acc with
  | nil => simp
  | cons mn ms ih =>
    rw [List.foldl_cons, List.filterMap_cons]
    by_cases hr : ranges.contains (convert_node_to_range mn.node)
    · rw [if_pos hr, if_pos hr]
      cases fixer with
      | some f =>
        dsimp only
        rw [ih]
        simp
      | none =>
        dsimp only
        rw [ih]
        simp
    · rw [if_neg hr, if_neg hr]
      dsimp only
      rw [ih]

/-- The fix edits as the specification words them (step (d) of the fix
resolver): for every applicable rule that has a bucket entry, re-run its
matcher over the live tree; each match whose computed range equals one of
the bucketed ranges for that rule id and whose rule defines a fixer template
contributes the fixer's edit at that range; matches without a fixer or
without a bucket hit contribute nothing.  This definition follows the spec's
words; the theorems below prove the source loop equal to it. -/
def spec_fix_edits {Lang : Type} (error_id_to_ranges : List (String × List Range))
    (root : AstGrep Lang) (configs : List (RuleConfig Lang)) : List TextEdit :=
  configs.flatMap fun config =>
    match assocLookup error_id_to_ranges config.id with
    | none => []
    | some ranges =>
      (config.find_all root).filterMap fun matched_node =>
        if ranges.contains (convert_node_to_range matched_node.node) then
          config.fixer.map fun fixer =>
            { range := convert_node_to_range matched_node.node, newText := fixer matched_node }
        else none

/-- The outer rule loop of `compute_all_fixes`, generalized over the
accumulator, equals the spec-worded edit list. -/
theorem fix_edits_outer_foldl {Lang : Type} (error_id_to_ranges : List (String × List Range))
    (root : AstGrep Lang) (configs : List (RuleConfig Lang)) (acc : List TextEdit) :
    configs.foldl
        (fun edits config =>
          match assocLookup error_id_to_ranges config.id with
          | none => edits
          | some ranges =>
            (config.find_all root).foldl
              (fun edits matched_node =>
                if ranges.contains (convert_node_to_range matched_node.node) then
                  match config.fixer with
                  | some fixer =>
                    edits ++ [{ range := convert_node_to_range matched_node.node,
                                newText := fixer matched_node }]
                  | none => edits
                else edits)
              edits)
        acc =
      acc ++ spec_fix_edits error_id_to_ranges root configs := by
  induction configs generalizing acc with
  | nil => simp [spec_fix_edits]
  | cons config cs ih =>
    simp only [List.foldl_cons]
    cases hb : assocLookup error_id_to_ranges config.id with
    | none =>
      dsimp only
      rw [ih]
      simp [spec_fix_edits, hb]
    | some ranges =>
      dsimp only
      rw [fix_edits_inner_foldl, ih]
      simp [spec_fix_edits, hb]

/-- `compute_all_fixes` refines the spec: when the document is stored, the
result is exactly one entry under the document's identifier holding the
spec-worded edit list; when it is not stored, the result is `none`. -/
theorem compute_all_fixes_eq_spec {Lang : Type} (store : Store Lang) (uri : String)
    (error_id_to_ranges : List (String × List Range)) (rules : RuleCollection Lang)
    (path : String) :
    compute_all_fixes store uri error_id_to_ranges rules path =
      (assocLookup store uri).map fun versioned =>
        [(uri, spec_fix_edits error_id_to_ranges versioned.root (rules.for_path path))] := by
  unfold compute_all_fixes
  cases assocLookup store uri with
  | none => rfl
  | some versioned =>
    dsimp only [Option.map]
    rw [fix_edits_outer_foldl]
    simp

/-- C2: in a fix computation, (i) the emitted edits are exactly those of the
spec's comprehension — an edit for each freshly recomputed match of an
applicable rule whose computed range equals one of the client-echoed ranges
bucketed for that rule id and whose rule defines a fixer template, all
collected under the document's identifier — and (ii) the bucket for a rule
id holds exactly the ranges of client diagnostics carrying that string id
as code, diagnostics with a non-string code being discarded. -/
theorem c2_fix_edits_exactly_bucketed_matches {Lang : Type} (store : Store Lang)
    (uri : String) (clientDiagnostics : List Diagnostic) (rules : RuleCollection Lang)
    (path : String) :
    compute_all_fixes store uri (build_error_id_to_ranges clientDiagnostics) rules path =
      ((assocLookup store uri).map fun versioned =>
        [(uri, spec_fix_edits (build_error_id_to_ranges clientDiagnostics)
            versioned.root (rules.for_path path))]) ∧
    (∀ id, assocLookup (build_error_id_to_ranges clientDiagnostics) id =
      if diag_ranges_for clientDiagnostics id = [] then none
      else some (diag_ranges_for clientDiagnostics id)) :=
  ⟨compute_all_fixes_eq_spec store uri (build_error_id_to_ranges clientDiagnostics) rules path,
   fun id => assocLookup_build_error_id_to_ranges clientDiagnostics id⟩

/-! ## C6 -/

/-- A flatMap over all-empty images is empty. -/
theorem flatMap_eq_nil_of_forall {α β : Type} (l : List α) (f : α → List β)
    (h : ∀ x ∈ l, f x = []) : l.flatMap f = [] := by
  induction l with
  | nil => rfl
  | cons a as ih =>
    have h1 : f a = [] := h a (by simp)
    have h2 : as.flatMap f = [] := ih fun x hx => h x (by simp [hx])
    simp [List.flatMap_cons, h1, h2]

/-- A filterMap over all-`none` images is empty. -/
theorem filterMap_eq_nil_of_forall {α β : Type} (l : List α) (f : α → Option β)
    (h : ∀ x ∈ l, f x = none) : l.filterMap f = [] := by
  induction l with
  | nil => rfl
  | cons a as ih =>
    have h1 : f a = none := h a (by simp)
    have h2 : as.filterMap f = [] := ih fun x hx => h x (by simp [hx])
    simp [List.filterMap_cons, h1, h2]

/-- "No match qualifies" for a fix request: every applicable rule's every
freshly recomputed match either has a range that misses the bucketed ranges
for that rule id, or belongs to a rule without a fixer template. -/
def no_qualifying_match {Lang : Type} (error_id_to_ranges : List (String × List Range))
    (root : AstGrep Lang) (configs : List (RuleConfig Lang)) : Prop :=
  ∀ config ∈ configs, ∀ ranges, assocLookup error_id_to_ranges config.id = some ranges →
    ∀ matched_node ∈ config.find_all root,
      ranges.contains (convert_node_to_range matched_node.node) = false ∨ config.fixer = none

/-- When no match qualifies, the spec-worded edit list is empty. -/
theorem spec_fix_edits_eq_nil {Lang : Type} (error_id_to_ranges : List (String × List Range))
    (root : AstGrep Lang) (configs : List (RuleConfig Lang))
    (h : no_qualifying_match error_id_to_ranges root configs) :
    spec_fix_edits error_id_to_ranges root configs = [] := by
  unfold spec_fix_edits
  apply flatMap_eq_nil_of_forall
  intro config hc
  dsimp only
  cases hb : assocLookup error_id_to_ranges config.id with
  | none => rfl
  | some ranges =>
    apply filterMap_eq_nil_of_forall
    intro mn hmn
    rcases h config hc ranges hb mn hmn with hmiss | hnof
    · have hm2 : ¬ (convert_node_to_range mn.node ∈ ranges) := by simpa using hmiss
      simp [hm2]
    · simp [hnof]

/-- C6: for an accepted action kind on a file-backed document, (a) when the
document has no stored tree the fix computation yields no edit batch at all
and the single returned action carries a workspace edit with absent changes
(an empty batch); (b) when the document is stored but no match qualifies,
the batch is present and maps the document's identifier to an explicitly
empty (present, not missing) edit list. -/
theorem c6_empty_batch_and_present_empty_edits {Lang : Type} (ext : Externals Lang)
    (rc : RuleCollection Lang) (store : Store Lang) (params : CodeActionParams)
    (path k : String) (rest : List String)
    (hpath : ext.toFilePath params.uri = some path)
    (honly : params.only = some (k :: rest))
    (hk : k = QUICKFIX ∨ k = SOURCE_FIX_ALL ∨ k = SOURCE_FIX_ALL_AST_GREP) :
    (assocLookup store params.uri = none →
      compute_all_fixes store params.uri (build_error_id_to_ranges params.diagnostics)
          rc path = none ∧
      on_code_action ext (Except.ok rc) store params =
        some [{ title := "Source Code fix action", kind := some k, diagnostics := none,
                edit := some { changes := none }, isPreferred := some true }]) ∧
    (∀ versioned, assocLookup store params.uri = some versioned →
      no_qualifying_match (build_error_id_to_ranges params.diagnostics) versioned.root
          (rc.for_path path) →
      compute_all_fixes store params.uri (build_error_id_to_ranges params.diagnostics)
          rc path = some [(params.uri, [])] ∧
      on_code_action ext (Except.ok rc) store params =
        some [{ title := "Source Code fix action", kind := some k, diagnostics := none,
                edit := some { changes := some [(params.uri, [])] },
                isPreferred := some true }]) := by
  have hcond : ¬(k ≠ QUICKFIX ∧ k ≠ SOURCE_FIX_ALL ∧ k ≠ SOURCE_FIX_ALL_AST_GREP) := by
    rcases hk with h | h | h <;> simp [h]
  constructor
  · intro hnone
    have hcomp : compute_all_fixes store params.uri
        (build_error_id_to_ranges params.diagnostics) rc path = none := by
      rw [compute_all_fixes_eq_spec, hnone]
      rfl
    refine ⟨hcomp, ?_⟩
    unfold on_code_action
    rw [hpath, honly]
    dsimp only
    rw [if_neg hcond]
    rw [hcomp]
  · intro versioned hsome hnq
    have hspec : spec_fix_edits (build_error_id_to_ranges params.diagnostics) versioned.root
        (rc.for_path path) = [] :=
      spec_fix_edits_eq_nil _ _ _ hnq
    have hcomp : compute_all_fixes store params.uri
        (build_error_id_to_ranges params.diagnostics) rc path = some [(params.uri, [])] := by
      rw [compute_all_fixes_eq_spec, hsome]
      dsimp only [Option.map]
      rw [hspec]
    refine ⟨hcomp, ?_⟩
    unfold on_code_action
    rw [hpath, honly]
    dsimp only
    rw [if_neg hcond]
    rw [hcomp]

/-- C6 witness: a quick-fix request for an unstored document returns the
single action whose workspace edit has no changes. -/
theorem c6_witness :
    on_code_action unitExternals (Except.ok emptyRules) ([] : Store Unit)
      { uri := "file:///a.ts", diagnostics := [], only := some ["quickfix"] } =
      some [{ title := "Source Code fix action", kind := some "quickfix", diagnostics := none,
              edit := some { changes := none }, isPreferred := some true }] :=
  ((c6_empty_batch_and_present_empty_edits unitExternals emptyRules ([] : Store Unit)
      { uri := "file:///a.ts", diagnostics := [], only := some ["quickfix"] }
      "file:///a.ts" "quickfix" [] rfl rfl (Or.inl rfl)).1 rfl).2

end AstGrepLsp
